import Mathlib

/-!
# File transfer over TCP: wire protocol, sender and receiver

A shallow embedding of `main-ref.go`: the function `runClient` (the sender) and the
function `handleConnection` (the receiver), together with the parts of the Go
standard library they call (`binary.Read`, `binary.Write`, `io.ReadFull`,
`filepath.Base`, `filepath.Join`, `filepath.Clean`, for a Unix target).

Modelling conventions.

* A byte is a `Fin 256`; a Go `string` or `[]byte` is a `List Byte`.
* A `uint32` is a `Nat` reduced modulo `2^32` wherever the Go code converts or adds.
* The receiving end of a connection is the finite list of bytes that arrive before the
  peer closes it; reading past its end gives `io.EOF`.
* The calls into the local file system and the writes to the connection can fail; which
  of them fail is given by an environment (`ServerEnv`, `ClientEnv`). A write that fails
  is taken to have written nothing.
* The header reads of `handleConnection` and the header writes of `runClient` are given
  names of their own, `decodeHeader` and `sendHeader`; the source has them inline.
* The receive loop is defined by recursion on a fuel counter that `handleConnection`
  sets to the declared content length; `handleConnection_total` shows that the fuel
  never runs out.
-/

namespace FileTransfer

/-! ## Bytes and 32-bit big-endian integers -/

abbrev Byte := Fin 256

/-- The byte holding the low eight bits of a number. -/
def byteOf (n : Nat) : Byte := ⟨n % 256, Nat.mod_lt n (by decide)⟩

/-- The bytes of an ASCII string; used to write concrete names and paths. -/
def bytesOfString (s : String) : List Byte :=
  s.data.map (fun c => byteOf c.toNat)

/-- The number of values of a `uint32`. -/
def U32 : Nat := 4294967296

/-- Go conversion `uint32(n)` of a non-negative integer. -/
def toUint32 (n : Nat) : Nat := n % U32

/-- What `binary.BigEndian.PutUint32` stores: most significant byte first. -/
def putUint32 (v : Nat) : List Byte :=
  [byteOf (v / 16777216), byteOf (v / 65536), byteOf (v / 256), byteOf v]

/-- What `binary.BigEndian.Uint32` decodes from a four byte buffer. -/
def getUint32 : List Byte → Nat
  | [a, b, c, d] => a.val * 16777216 + b.val * 65536 + c.val * 256 + d.val
  | _ => 0

/-! ## Reading from a connection -/

/-- The two errors `io.ReadFull` gives on a stream that ends: `io.EOF` when no byte was
read, `io.ErrUnexpectedEOF` when some but not all were. -/
inductive ReadErr
  | eof
  | unexpectedEOF
deriving DecidableEq

/-- Model of `io.ReadFull(conn, buf)` with `len(buf) = n`: the bytes read and the rest
of the stream, or the error. A zero length buffer is filled without reading. -/
def readFull (n : Nat) (conn : List Byte) : Except ReadErr (List Byte × List Byte) :=
  if n ≤ conn.length then .ok (conn.take n, conn.drop n)
  else if conn.length = 0 then .error .eof
  else .error .unexpectedEOF

/-- Model of `binary.Read(conn, binary.BigEndian, &v)` for `v` a `uint32`. -/
def binaryReadUint32 (conn : List Byte) : Except ReadErr (Nat × List Byte) :=
  match readFull 4 conn with
  | .ok (buf, rest) => .ok (getUint32 buf, rest)
  | .error e => .error e

/-! ## Paths (`path/filepath`, Unix) -/

/-- The path separator `/`. -/
def Separator : Byte := 47

/-- The character `.`. -/
def dot : Byte := 46

def isPathSeparator (c : Byte) : Bool := c == Separator

/-- Model of `filepath.Base`: the last element of the path, after removing trailing
separators; `.` for the empty path and `/` for a path of separators only. -/
def Base (path : List Byte) : List Byte :=
  if path = [] then [dot]
  else
    let stripped := (path.reverse.dropWhile isPathSeparator).reverse
    let last := (stripped.reverse.takeWhile (fun c => !isPathSeparator c)).reverse
    if last = [] then [Separator] else last

/-- The backtracking of `filepath.Clean` on a `..` element: starting from index `w`,
move left while the index is above `dotdot` and the byte there is not a separator. -/
def backtrack (out : List Byte) (dotdot : Nat) : Nat → Nat
  | 0 => 0
  | w + 1 =>
    if dotdot < w + 1 && !isPathSeparator (out.getD (w + 1) 0) then backtrack out dotdot w
    else w + 1

/-- The main loop of `filepath.Clean` over the unread part `rest` of the path, with the
output written so far in `out`. Each step consumes at least one byte of `rest`, so a fuel
of the length of `rest` is enough. -/
def cleanLoop (rooted : Bool) : Nat → List Byte → List Byte → Nat → List Byte
  | 0, _, out, _ => out
  | fuel + 1, rest, out, dotdot =>
    match rest with
    | [] => out
    | c :: t =>
      if isPathSeparator c then
        cleanLoop rooted fuel t out dotdot
      else if c = dot ∧ (t = [] ∨ (t.head?.map isPathSeparator) = some true) then
        cleanLoop rooted fuel t out dotdot
      else if c = dot ∧ t.head? = some dot ∧
          (t.tail = [] ∨ (t.tail.head?.map isPathSeparator) = some true) then
        if dotdot < out.length then
          cleanLoop rooted fuel t.tail (out.take (backtrack out dotdot (out.length - 1))) dotdot
        else if !rooted then
          let out1 := (if 0 < out.length then out ++ [Separator] else out) ++ [dot, dot]
          cleanLoop rooted fuel t.tail out1 out1.length
        else
          cleanLoop rooted fuel t.tail out dotdot
      else
        let out1 :=
          if (rooted && out.length != 1) || (!rooted && out.length != 0)
          then out ++ [Separator] else out
        cleanLoop rooted fuel (rest.dropWhile (fun x => !isPathSeparator x))
          (out1 ++ rest.takeWhile (fun x => !isPathSeparator x)) dotdot

/-- Model of `filepath.Clean`. -/
def Clean (path : List Byte) : List Byte :=
  if path = [] then [dot]
  else
    let rooted := (path.head?.map isPathSeparator) = some true
    let out :=
      if rooted then cleanLoop true path.length path.tail [Separator] 1
      else cleanLoop false path.length path [] 0
    if out = [] then [dot] else out

/-- Model of `filepath.Join(a, b)`: the elements from the first non-empty one on, joined
by a separator, then cleaned; the empty path when both are empty. -/
def Join (a b : List Byte) : List Byte :=
  if a = [] then (if b = [] then [] else Clean b)
  else Clean (a ++ [Separator] ++ b)

/-! ## The receiver: `handleConnection` -/

/-- Which local file system calls of the receiver succeed: `os.MkdirAll`, `os.Create`
on a given path, and the `file.Write` of the chunk with a given index (from 0). -/
structure ServerEnv where
  mkdirOk : Bool
  createOk : List Byte → Bool
  writeOk : Nat → Bool

/-- The ways `handleConnection` ends: one per `return` of the source, in source order,
the last but one being the line "File received successfully". `outOfFuel` is an
artefact of the model (never produced, see `handleConnection_total`). -/
inductive ServerOutcome
  | failReadFilenameLen (e : ReadErr)
  | failReadFilename (e : ReadErr)
  | failReadContentLen (e : ReadErr)
  | failMkdir
  | failCreate
  | failReadContent (e : ReadErr)
  | failWrite
  | success
  | outOfFuel
deriving DecidableEq

/-- The header reads of `handleConnection`: the `uint32` filename length, that many
filename bytes, the `uint32` content length. Gives the filename bytes as received, the
content length and the unread rest of the stream. -/
def decodeHeader (conn : List Byte) : Except ServerOutcome (List Byte × Nat × List Byte) :=
  match binaryReadUint32 conn with
  | .error e => .error (.failReadFilenameLen e)
  | .ok (filenameLen, conn1) =>
    match readFull filenameLen conn1 with
    | .error e => .error (.failReadFilename e)
    | .ok (filenameBytes, conn2) =>
      match binaryReadUint32 conn2 with
      | .error e => .error (.failReadContentLen e)
      | .ok (contentLen, conn3) => .ok (filenameBytes, contentLen, conn3)

/-- The variables of the receive loop: the unread stream, the bytes written to the file,
`totalRead`, and (a ghost variable) the pair `(totalRead, readSize)` of every iteration
so far. -/
structure RecvState where
  conn : List Byte
  file : List Byte
  totalRead : Nat
  requests : List (Nat × Nat)
deriving DecidableEq

/-- The size of the buffer of both loops. -/
def bufferSize : Nat := 4096

/-- The `readSize` of one iteration: the buffer size, or the `uint32` difference
`contentLen - totalRead` when that is smaller. -/
def readSizeOf (contentLen totalRead : Nat) : Nat :=
  if (contentLen + U32 - totalRead) % U32 < bufferSize
  then (contentLen + U32 - totalRead) % U32 else bufferSize

/-- The loop `for totalRead < contentLen` of `handleConnection`. A chunk whose
`io.ReadFull` fails is dropped, as in the source, which returns before `file.Write`; a
`file.Write` that fails is taken to have written nothing. -/
def recvLoop (env : ServerEnv) (contentLen : Nat) :
    Nat → RecvState → ServerOutcome × RecvState
  | 0, st => if st.totalRead < contentLen then (.outOfFuel, st) else (.success, st)
  | fuel + 1, st =>
    if st.totalRead < contentLen then
      let readSize := readSizeOf contentLen st.totalRead
      let requests := st.requests ++ [(st.totalRead, readSize)]
      match readFull readSize st.conn with
      | .error e => (.failReadContent e, { st with conn := [], requests := requests })
      | .ok (chunk, rest) =>
        if env.writeOk st.requests.length then
          recvLoop env contentLen fuel
            { conn := rest, file := st.file ++ chunk,
              totalRead := (st.totalRead + chunk.length) % U32, requests := requests }
        else (.failWrite, { st with conn := rest, requests := requests })
    else (.success, st)

/-- What a run of `handleConnection` leaves behind. `createArg` is the path handed to
`os.Create` when the call is reached; `file` is the content of the created file, `none`
when no file was created; `unread` is what is left of the stream. -/
structure ServerResult where
  outcome : ServerOutcome
  createArg : Option (List Byte)
  file : Option (List Byte)
  totalRead : Nat
  requests : List (Nat × Nat)
  unread : List Byte
deriving DecidableEq

/-- The storage directory of the receiver. -/
def sStorageDir : List Byte := bytesOfString "server-storage"

/-- Model of `handleConnection` on the stream `conn`. -/
def handleConnection (env : ServerEnv) (conn : List Byte) : ServerResult :=
  match decodeHeader conn with
  | .error o =>
    { outcome := o, createArg := none, file := none, totalRead := 0, requests := [],
      unread := [] }
  | .ok (filenameBytes, contentLen, conn3) =>
    let filename := Base filenameBytes
    if !env.mkdirOk then
      { outcome := .failMkdir, createArg := none, file := none, totalRead := 0,
        requests := [], unread := conn3 }
    else
      let filename := Join sStorageDir filename
      if !env.createOk filename then
        { outcome := .failCreate, createArg := some filename, file := none, totalRead := 0,
          requests := [], unread := conn3 }
      else
        let r := recvLoop env contentLen contentLen
          { conn := conn3, file := [], totalRead := 0, requests := [] }
        { outcome := r.1, createArg := some filename, file := some r.2.file,
          totalRead := r.2.totalRead, requests := r.2.requests, unread := r.2.conn }

/-! ## The sender: `runClient` -/

/-- The error of one `file.Read`: none, `io.EOF`, or any other error. -/
inductive FileErr
  | nil
  | eof
  | other
deriving DecidableEq

/-- The result `(buffer[:bytesRead], err)` of one `file.Read(buffer)`. -/
structure ReadRes where
  data : List Byte
  err : FileErr
deriving DecidableEq

/-- Which calls of the sender succeed: `os.Open`, `net.Dial`, `file.Stat`, and the write
to the connection with a given index (0 the filename length, 1 the filename, 2 the
content length, 3 onwards the chunks of the content). -/
structure ClientEnv where
  openOk : Bool
  dialOk : Bool
  statOk : Bool
  connWriteOk : Nat → Bool

/-- The ways `runClient` ends: one per `os.Exit(1)` of the source, in source order, and
the line "File sent successfully". -/
inductive ClientOutcome
  | failOpen
  | failDial
  | failSendFilenameLen
  | failSendFilename
  | failStat
  | failSendContentLen
  | failReadFile
  | failSendData
  | success
deriving DecidableEq

/-- What a run of `runClient` did: how it ended, every byte it wrote to the connection,
in order, and `totalSent`. -/
structure ClientResult where
  outcome : ClientOutcome
  wire : List Byte
  totalSent : Nat
deriving DecidableEq

/-- The header writes of `runClient`: the `uint32` length of the filename bytes, the
filename bytes, then (after `file.Stat`) the `uint32` conversion of the file size. Gives
the bytes written, or how the run ended and the bytes written until then. -/
def sendHeader (env : ClientEnv) (filenameBytes : List Byte) (size : Nat) :
    Except (ClientOutcome × List Byte) (List Byte) :=
  if !env.connWriteOk 0 then .error (.failSendFilenameLen, [])
  else
    let wire1 := putUint32 (toUint32 filenameBytes.length)
    if !env.connWriteOk 1 then .error (.failSendFilename, wire1)
    else
      let wire2 := wire1 ++ filenameBytes
      if !env.statOk then .error (.failStat, wire2)
      else
        let contentLen := toUint32 size
        if !env.connWriteOk 2 then .error (.failSendContentLen, wire2)
        else .ok (wire2 ++ putUint32 contentLen)

/-- The header bytes `sendHeader` puts on the wire when its calls all succeed
(`sendHeader_ok`). -/
def encodeHeader (filenameBytes : List Byte) (size : Nat) : List Byte :=
  putUint32 (toUint32 filenameBytes.length) ++ filenameBytes ++ putUint32 (toUint32 size)

/-- The loop `for totalSent < contentLen` of `runClient`. `reads` are the results of the
successive `file.Read` calls; once they are used up a read gives `(0, io.EOF)`, so that
the loop ends there whether or not `totalSent < contentLen`. `i` is the index of the next
write to the connection. -/
def sendLoop (env : ClientEnv) (contentLen : Nat) :
    List ReadRes → Nat → List Byte → Nat → ClientResult
  | [], totalSent, wire, _ => { outcome := .success, wire := wire, totalSent := totalSent }
  | r :: rs, totalSent, wire, i =>
    if totalSent < contentLen then
      if r.err = .other then { outcome := .failReadFile, wire := wire, totalSent := totalSent }
      else if r.data.length = 0 then
        { outcome := .success, wire := wire, totalSent := totalSent }
      else if env.connWriteOk i then
        sendLoop env contentLen rs ((totalSent + r.data.length) % U32) (wire ++ r.data) (i + 1)
      else { outcome := .failSendData, wire := wire, totalSent := totalSent }
    else { outcome := .success, wire := wire, totalSent := totalSent }

/-- The directory the sender takes its files from. -/
def cStorageDir : List Byte := bytesOfString "client-storage/"

/-- Model of `runClient(filename)`, for a file whose `Stat` reports `size` bytes and
whose reads give `reads`. -/
def runClient (env : ClientEnv) (filename : List Byte) (size : Nat) (reads : List ReadRes) :
    ClientResult :=
  let filename := cStorageDir ++ filename
  if !env.openOk then { outcome := .failOpen, wire := [], totalSent := 0 }
  else
    let baseFilename := Base filename
    if !env.dialOk then { outcome := .failDial, wire := [], totalSent := 0 }
    else
      match sendHeader env baseFilename size with
      | .error (o, wire) => { outcome := o, wire := wire, totalSent := 0 }
      | .ok wire => sendLoop env (toUint32 size) reads 0 wire 3

/-- The environment of a receiver whose file system calls all succeed. -/
def ServerEnv.allOk : ServerEnv :=
  { mkdirOk := true, createOk := fun _ => true, writeOk := fun _ => true }

/-- The environment of a sender whose calls all succeed. -/
def ClientEnv.allOk : ClientEnv :=
  { openOk := true, dialOk := true, statOk := true, connWriteOk := fun _ => true }

/-! ## Notions used to state the properties -/

/-- The pair `(totalRead, readSize)` of iteration `i` of a receive loop that gets all
of its `contentLen` bytes. -/
def chunkRequest (contentLen i : Nat) : Nat × Nat :=
  (4096 * i, min 4096 (contentLen - 4096 * i))

/-- The number of chunks of a content of `contentLen` bytes: `contentLen / 4096`,
rounded up. -/
def chunkCount (contentLen : Nat) : Nat := (contentLen + 4095) / 4096

/-- The content length field of what was written to a connection for a filename of
`nameLen` bytes: the big-endian value of the four bytes at offset `4 + nameLen`. -/
def declaredContentLen (wire : List Byte) (nameLen : Nat) : Nat :=
  getUint32 ((wire.drop (4 + nameLen)).take 4)

/-- The read results of a file whose reads give the chunks `chunks` without error. -/
def readsOf (chunks : List (List Byte)) : List ReadRes :=
  chunks.map (fun c => { data := c, err := .nil })


/-! ## Integers and reads -/

theorem getUint32_putUint32 (v : Nat) (h : v < U32) : getUint32 (putUint32 v) = v := by
  unfold U32 at h
  simp only [putUint32, getUint32, byteOf]
  omega

theorem getUint32_lt (buf : List Byte) : getUint32 buf < U32 := by
  unfold U32
  match buf with
  | [] => simp [getUint32]
  | [_] => simp [getUint32]
  | [_, _] => simp [getUint32]
  | [_, _, _] => simp [getUint32]
  | [a, b, c, d] =>
    simp only [getUint32]
    have := a.isLt
    have := b.isLt
    have := c.isLt
    have := d.isLt
    omega
  | _ :: _ :: _ :: _ :: _ :: _ => simp [getUint32]

theorem length_putUint32 (v : Nat) : (putUint32 v).length = 4 := rfl

theorem readFull_append (a b : List Byte) : readFull a.length (a ++ b) = .ok (a, b) := by
  simp [readFull]

theorem readFull_ok_length {n : Nat} {conn chunk rest : List Byte}
    (h : readFull n conn = .ok (chunk, rest)) :
    chunk.length = n ∧ conn = chunk ++ rest := by
  unfold readFull at h
  split at h
  · rename_i hn
    simp only [Except.ok.injEq, Prod.mk.injEq] at h
    obtain ⟨h1, h2⟩ := h
    subst h1 h2
    exact ⟨by simp [hn], (List.take_append_drop n conn).symm⟩
  · split at h <;> simp at h

theorem binaryReadUint32_put (v : Nat) (h : v < U32) (rest : List Byte) :
    binaryReadUint32 (putUint32 v ++ rest) = .ok (v, rest) := by
  have h1 : readFull 4 (putUint32 v ++ rest) = .ok (putUint32 v, rest) :=
    readFull_append (putUint32 v) rest
  simp only [binaryReadUint32, h1, getUint32_putUint32 v h]

theorem binaryReadUint32_lt {conn rest : List Byte} {v : Nat}
    (h : binaryReadUint32 conn = .ok (v, rest)) : v < U32 := by
  unfold binaryReadUint32 at h
  split at h
  · simp only [Except.ok.injEq, Prod.mk.injEq] at h
    rw [← h.1]
    exact getUint32_lt _
  · simp at h

theorem toUint32_of_lt {n : Nat} (h : n < U32) : toUint32 n = n := Nat.mod_eq_of_lt h

theorem length_encodeHeader (name : List Byte) (size : Nat) :
    (encodeHeader name size).length = 8 + name.length := by
  simp [encodeHeader, length_putUint32]
  omega

theorem decodeHeader_encodeHeader (name : List Byte) (size : Nat) (rest : List Byte)
    (hN : name.length < U32) (hM : size < U32) :
    decodeHeader (encodeHeader name size ++ rest) = .ok (name, size, rest) := by
  simp only [encodeHeader, toUint32_of_lt hN, toUint32_of_lt hM, List.append_assoc, decodeHeader,
    binaryReadUint32_put _ hN, readFull_append, binaryReadUint32_put _ hM]

theorem sendHeader_ok (env : ClientEnv) (name : List Byte) (size : Nat)
    (h0 : env.connWriteOk 0 = true) (h1 : env.connWriteOk 1 = true)
    (hs : env.statOk = true) (h2 : env.connWriteOk 2 = true) :
    sendHeader env name size = .ok (encodeHeader name size) := by
  simp [sendHeader, encodeHeader, h0, h1, hs, h2]


/-! ## The receive loop -/

theorem readSizeOf_eq {M t : Nat} (hM : M < U32) (ht : t < M) :
    readSizeOf M t = min 4096 (M - t) := by
  have h1 : (M + U32 - t) % U32 = M - t := by
    have h2 : M + U32 - t = (M - t) + U32 := by omega
    rw [h2, Nat.add_mod_right, Nat.mod_eq_of_lt (by omega)]
  unfold readSizeOf bufferSize
  rw [h1]
  split <;> omega

theorem recvLoop_total (env : ServerEnv) (M : Nat) (hM : M < U32) :
    ∀ (fuel : Nat) (st : RecvState), st.totalRead ≤ M → M - st.totalRead ≤ fuel →
      (recvLoop env M fuel st).1 ≠ .outOfFuel := by
  intro fuel
  induction fuel with
  | zero =>
    intro st h1 h2
    have h3 : ¬ st.totalRead < M := by omega
    simp [recvLoop, h3]
  | succ fuel ih =>
    intro st h1 h2
    rw [recvLoop]
    by_cases hlt : st.totalRead < M
    · simp only [hlt, if_true]
      cases hr : readFull (readSizeOf M st.totalRead) st.conn with
      | error e => simp
      | ok p =>
        obtain ⟨chunk, rest⟩ := p
        have hlen := (readFull_ok_length hr).1
        rw [readSizeOf_eq hM hlt] at hlen
        simp only
        by_cases hw : env.writeOk st.requests.length = true
        · simp only [hw, if_true]
          have hsum : st.totalRead + chunk.length ≤ M := by omega
          have hmod : (st.totalRead + chunk.length) % U32 = st.totalRead + chunk.length :=
            Nat.mod_eq_of_lt (by omega)
          apply ih
          · simp only [hmod]; exact hsum
          · simp only [hmod]; omega
        · simp [hw]
    · simp [hlt]

theorem recvLoop_short_not_success (env : ServerEnv) (M : Nat) (hM : M < U32) :
    ∀ (fuel : Nat) (st : RecvState), st.totalRead ≤ M →
      st.conn.length < M - st.totalRead →
      (recvLoop env M fuel st).1 ≠ .success := by
  intro fuel
  induction fuel with
  | zero =>
    intro st h1 h2
    have h3 : st.totalRead < M := by omega
    simp [recvLoop, h3]
  | succ fuel ih =>
    intro st h1 h2
    have hlt : st.totalRead < M := by omega
    rw [recvLoop]
    simp only [hlt, if_true]
    cases hr : readFull (readSizeOf M st.totalRead) st.conn with
    | error e => simp
    | ok p =>
      obtain ⟨chunk, rest⟩ := p
      obtain ⟨hlen, hconn⟩ := readFull_ok_length hr
      rw [readSizeOf_eq hM hlt] at hlen
      simp only
      by_cases hw : env.writeOk st.requests.length = true
      · simp only [hw, if_true]
        have hcl : st.conn.length = chunk.length + rest.length := by
          rw [hconn, List.length_append]
        have hsum : st.totalRead + chunk.length ≤ M := by omega
        have hmod : (st.totalRead + chunk.length) % U32 = st.totalRead + chunk.length :=
          Nat.mod_eq_of_lt (by omega)
        apply ih
        · simp only [hmod]; exact hsum
        · simp only [hmod]; omega
      · simp [hw]


theorem readFull_of_le {n : Nat} {conn : List Byte} (h : n ≤ conn.length) :
    readFull n conn = .ok (conn.take n, conn.drop n) := by
  simp [readFull, h]

theorem readFull_of_lt {n : Nat} {conn : List Byte} (h : conn.length < n) :
    readFull n conn = .error (if conn.length = 0 then .eof else .unexpectedEOF) := by
  have h1 : ¬ n ≤ conn.length := by omega
  unfold readFull
  simp only [h1, if_false]
  split <;> rfl

theorem recvLoop_full (env : ServerEnv) (M : Nat) (hM : M < U32) (body extra : List Byte)
    (hbody : body.length = M) (hw : ∀ i, env.writeOk i = true) :
    ∀ (fuel j : Nat) (st : RecvState), j ≤ chunkCount M → chunkCount M - j ≤ fuel →
      st.conn = body.drop (4096 * j) ++ extra →
      st.file = body.take (4096 * j) →
      st.totalRead = min (4096 * j) M →
      st.requests = (List.range j).map (chunkRequest M) →
      recvLoop env M fuel st =
        (.success, { conn := extra, file := body, totalRead := M,
                     requests := (List.range (chunkCount M)).map (chunkRequest M) }) := by
  have hn : chunkCount M = (M + 4095) / 4096 := rfl
  intro fuel
  induction fuel with
  | zero =>
    intro j st hj hfuel hconn hfile htot hreq
    have hjn : j = chunkCount M := by omega
    have hge : M ≤ 4096 * j := by omega
    have h3 : ¬ st.totalRead < M := by rw [htot]; omega
    simp only [recvLoop, h3, if_false]
    rw [List.drop_of_length_le (by omega)] at hconn
    rw [List.take_of_length_le (by omega)] at hfile
    rw [Nat.min_eq_right hge] at htot
    rw [hjn] at hreq
    obtain ⟨c, f, t, r⟩ := st
    simp only at hconn hfile htot hreq
    simp [hconn, hfile, htot, hreq]
  | succ fuel ih =>
    intro j st hj hfuel hconn hfile htot hreq
    rw [recvLoop]
    by_cases hjn : j = chunkCount M
    · have hge : M ≤ 4096 * j := by omega
      have h3 : ¬ st.totalRead < M := by rw [htot]; omega
      simp only [h3, if_false]
      rw [List.drop_of_length_le (by omega)] at hconn
      rw [List.take_of_length_le (by omega)] at hfile
      rw [Nat.min_eq_right hge] at htot
      rw [hjn] at hreq
      obtain ⟨c, f, t, r⟩ := st
      simp only at hconn hfile htot hreq
      simp [hconn, hfile, htot, hreq]
    · have hlt : 4096 * j < M := by omega
      have htot1 : st.totalRead = 4096 * j := by rw [htot]; omega
      have h3 : st.totalRead < M := by omega
      simp only [h3, if_true]
      have hrs : readSizeOf M st.totalRead = min 4096 (M - 4096 * j) := by
        rw [readSizeOf_eq hM h3, htot1]
      have hle : readSizeOf M st.totalRead ≤ (body.drop (4096 * j)).length := by
        rw [hrs, List.length_drop]; omega
      have hread : readFull (readSizeOf M st.totalRead) st.conn =
          .ok ((body.drop (4096 * j)).take (readSizeOf M st.totalRead),
               (body.drop (4096 * j)).drop (readSizeOf M st.totalRead) ++ extra) := by
        rw [hconn, readFull_of_le (by rw [List.length_append]; omega),
          List.take_append_of_le_length hle, List.drop_append_of_le_length hle]
      rw [hread]
      simp only [hw, if_true]
      have hclen : ((body.drop (4096 * j)).take (readSizeOf M st.totalRead)).length =
          readSizeOf M st.totalRead := by
        rw [List.length_take]; omega
      have hnext : 4096 * j + readSizeOf M st.totalRead = min (4096 * (j + 1)) M := by
        rw [hrs]; omega
      apply ih (j + 1)
      · omega
      · omega
      · simp only
        rw [List.drop_drop]
        by_cases hfull : 4096 * (j + 1) ≤ M
        · have : 4096 * j + readSizeOf M st.totalRead = 4096 * (j + 1) := by omega
          rw [this]
        · rw [List.drop_of_length_le (by omega), List.drop_of_length_le (by omega)]
      · simp only
        rw [hfile, ← List.take_add]
        by_cases hfull : 4096 * (j + 1) ≤ M
        · have : 4096 * j + readSizeOf M st.totalRead = 4096 * (j + 1) := by omega
          rw [this]
        · rw [List.take_of_length_le (by omega), List.take_of_length_le (by omega)]
      · simp only
        have h5 : st.totalRead + readSizeOf M st.totalRead = min (4096 * (j + 1)) M := by
          omega
        rw [hclen, h5]
        exact Nat.mod_eq_of_lt (by omega)
      · simp only
        rw [hreq, List.range_succ, List.map_append, hrs, htot1]
        rfl

theorem recvLoop_short (env : ServerEnv) (M : Nat) (hM : M < U32) (s : List Byte)
    (hk : s.length < M) (hw : ∀ i, env.writeOk i = true) :
    ∀ (fuel j : Nat) (st : RecvState), 4096 * j ≤ s.length →
      s.length / 4096 - j < fuel →
      st.conn = s.drop (4096 * j) →
      st.file = s.take (4096 * j) →
      st.totalRead = 4096 * j →
      st.requests = (List.range j).map (chunkRequest M) →
      recvLoop env M fuel st =
        (.failReadContent (if s.length % 4096 = 0 then .eof else .unexpectedEOF),
         { conn := [], file := s.take (4096 * (s.length / 4096)),
           totalRead := 4096 * (s.length / 4096),
           requests := (List.range (s.length / 4096 + 1)).map (chunkRequest M) }) := by
  intro fuel
  induction fuel with
  | zero => intro j st hj hfuel; omega
  | succ fuel ih =>
    intro j st hj hfuel hconn hfile htot hreq
    rw [recvLoop]
    have h3 : st.totalRead < M := by omega
    simp only [h3, if_true]
    have hrs : readSizeOf M st.totalRead = min 4096 (M - 4096 * j) := by
      rw [readSizeOf_eq hM h3, htot]
    by_cases hfull : 4096 * (j + 1) ≤ s.length
    · have hrs1 : readSizeOf M st.totalRead = 4096 := by rw [hrs]; omega
      have hread : readFull (readSizeOf M st.totalRead) st.conn =
          .ok ((s.drop (4096 * j)).take 4096,
               (s.drop (4096 * j)).drop 4096) := by
        rw [hconn, hrs1, readFull_of_le (by rw [List.length_drop]; omega)]
      rw [hread]
      simp only [hw, if_true]
      have hclen : ((s.drop (4096 * j)).take 4096).length = 4096 := by
        rw [List.length_take, List.length_drop]; omega
      have hdiv : j + 1 ≤ s.length / 4096 := by
        omega
      apply ih (j + 1)
      · exact hfull
      · omega
      · simp only
        rw [List.drop_drop, Nat.mul_succ]
      · simp only
        rw [hfile, ← List.take_add, Nat.mul_succ]
      · simp only
        rw [hclen, htot, Nat.mul_succ]
        exact Nat.mod_eq_of_lt (by omega)
      · simp only
        rw [hreq, List.range_succ, List.map_append, hrs, htot]
        rfl
    · have hdiv : s.length / 4096 = j := by
        omega
      have hlen : st.conn.length = s.length - 4096 * j := by
        rw [hconn, List.length_drop]
      have hread : readFull (readSizeOf M st.totalRead) st.conn =
          .error (if s.length % 4096 = 0 then .eof else .unexpectedEOF) := by
        rw [readFull_of_lt (by rw [hlen, hrs]; omega), hlen]
        have hiff : s.length - 4096 * j = 0 ↔ s.length % 4096 = 0 := by
          omega
        simp only [hiff]
      rw [hread]
      simp only
      rw [hdiv, hfile, hreq, List.range_succ, List.map_append, hrs, htot]
      rfl


/-! ## The receiver as a whole -/

theorem chunkCount_le (M : Nat) : chunkCount M ≤ M := by
  unfold chunkCount
  omega

theorem handleConnection_of_header (env : ServerEnv) (conn name rest : List Byte) (M : Nat)
    (hdec : decodeHeader conn = .ok (name, M, rest))
    (hmk : env.mkdirOk = true) (hcr : env.createOk (Join sStorageDir (Base name)) = true) :
    handleConnection env conn =
      { outcome := (recvLoop env M M { conn := rest, file := [], totalRead := 0,
                                       requests := [] }).1,
        createArg := some (Join sStorageDir (Base name)),
        file := some (recvLoop env M M { conn := rest, file := [], totalRead := 0,
                                         requests := [] }).2.file,
        totalRead := (recvLoop env M M { conn := rest, file := [], totalRead := 0,
                                         requests := [] }).2.totalRead,
        requests := (recvLoop env M M { conn := rest, file := [], totalRead := 0,
                                        requests := [] }).2.requests,
        unread := (recvLoop env M M { conn := rest, file := [], totalRead := 0,
                                      requests := [] }).2.conn } := by
  simp [handleConnection, hdec, hmk, hcr]

theorem handleConnection_complete (env : ServerEnv) (name body extra : List Byte)
    (hN : name.length < U32) (hM : body.length < U32)
    (hmk : env.mkdirOk = true) (hcr : env.createOk (Join sStorageDir (Base name)) = true)
    (hw : ∀ i, env.writeOk i = true) :
    handleConnection env (encodeHeader name body.length ++ (body ++ extra)) =
      { outcome := .success, createArg := some (Join sStorageDir (Base name)),
        file := some body, totalRead := body.length,
        requests := (List.range (chunkCount body.length)).map (chunkRequest body.length),
        unread := extra } := by
  rw [handleConnection_of_header env _ name (body ++ extra) body.length
    (decodeHeader_encodeHeader name body.length (body ++ extra) hN hM) hmk hcr]
  rw [recvLoop_full env body.length hM body extra rfl hw body.length 0 _
    (Nat.zero_le _) (by have := chunkCount_le body.length; omega)
    (by simp) (by simp) (by simp) (by simp)]

theorem handleConnection_truncated (env : ServerEnv) (name body : List Byte) (M : Nat)
    (hN : name.length < U32) (hM : M < U32) (hk : body.length < M)
    (hmk : env.mkdirOk = true) (hcr : env.createOk (Join sStorageDir (Base name)) = true)
    (hw : ∀ i, env.writeOk i = true) :
    handleConnection env (encodeHeader name M ++ body) =
      { outcome := .failReadContent (if body.length % 4096 = 0 then .eof else .unexpectedEOF),
        createArg := some (Join sStorageDir (Base name)),
        file := some (body.take (4096 * (body.length / 4096))),
        totalRead := 4096 * (body.length / 4096),
        requests := (List.range (body.length / 4096 + 1)).map (chunkRequest M),
        unread := [] } := by
  rw [handleConnection_of_header env _ name body M
    (decodeHeader_encodeHeader name M body hN hM) hmk hcr]
  rw [recvLoop_short env M hM body hk hw M 0 _ (Nat.zero_le _) (by omega)
    (by simp) (by simp) (by simp) (by simp)]

theorem decodeHeader_lt {conn name rest : List Byte} {M : Nat}
    (h : decodeHeader conn = .ok (name, M, rest)) : M < U32 := by
  unfold decodeHeader at h
  split at h
  · simp at h
  · split at h
    · simp at h
    · split at h
      · simp at h
      · rename_i h3
        simp only [Except.ok.injEq, Prod.mk.injEq] at h
        rw [← h.2.1]
        exact binaryReadUint32_lt h3

/-- The fuel `handleConnection` gives its receive loop is never used up: the model of
`handleConnection` ends in one of the outcomes of the source on every stream and in
every environment. -/
theorem handleConnection_total (env : ServerEnv) (conn : List Byte) :
    (handleConnection env conn).outcome ≠ .outOfFuel := by
  unfold handleConnection
  cases hdec : decodeHeader conn with
  | error o =>
    simp only
    unfold decodeHeader at hdec
    split at hdec
    · simp only [Except.error.injEq] at hdec; rw [← hdec]; simp
    · split at hdec
      · simp only [Except.error.injEq] at hdec; rw [← hdec]; simp
      · split at hdec
        · simp only [Except.error.injEq] at hdec; rw [← hdec]; simp
        · simp at hdec
  | ok p =>
    obtain ⟨name, M, rest⟩ := p
    simp only
    by_cases hmk : env.mkdirOk = true
    · by_cases hcr : env.createOk (Join sStorageDir (Base name)) = true
      · simp only [hmk, hcr, Bool.not_true, Bool.false_eq_true, if_false]
        exact recvLoop_total env M (decodeHeader_lt hdec) M _ (Nat.zero_le _) (by simp)
      · simp [hmk, hcr]
    · simp [hmk]

theorem handleConnection_truncated_not_success (env : ServerEnv) (name body : List Byte)
    (M : Nat) (hN : name.length < U32) (hM : M < U32) (hk : body.length < M) :
    (handleConnection env (encodeHeader name M ++ body)).outcome ≠ .success := by
  unfold handleConnection
  rw [decodeHeader_encodeHeader name M body hN hM]
  simp only
  by_cases hmk : env.mkdirOk = true
  · by_cases hcr : env.createOk (Join sStorageDir (Base name)) = true
    · simp only [hmk, hcr, Bool.not_true, Bool.false_eq_true, if_false]
      exact recvLoop_short_not_success env M hM M _ (Nat.zero_le _) (by simpa using hk)
    · simp [hmk, hcr]
  · simp [hmk]

/-! ## The send loop -/

theorem sendLoop_chunks (env : ClientEnv) (M : Nat) (hM : M < U32)
    (hw : ∀ i, env.connWriteOk i = true) :
    ∀ (chunks : List (List Byte)) (totalSent : Nat) (wire : List Byte) (i : Nat),
      (∀ c ∈ chunks, 0 < c.length) → totalSent + chunks.flatten.length = M →
      sendLoop env M (readsOf chunks) totalSent wire i =
        { outcome := .success, wire := wire ++ chunks.flatten, totalSent := M } := by
  intro chunks
  induction chunks with
  | nil =>
    intro totalSent wire i _ hsum
    simp at hsum
    simp [readsOf, sendLoop, hsum]
  | cons c cs ih =>
    intro totalSent wire i hne hsum
    have hc : 0 < c.length := hne c (List.mem_cons_self c cs)
    simp only [List.flatten_cons, List.length_append] at hsum
    have hlt : totalSent < M := by omega
    have hmod : (totalSent + c.length) % U32 = totalSent + c.length :=
      Nat.mod_eq_of_lt (by omega)
    have hc0 : ¬ c.length = 0 := by omega
    simp only [readsOf, List.map_cons, sendLoop, hlt, if_true, hw, hc0, if_false, hmod]
    have hih := ih (totalSent + c.length) (wire ++ c) (i + 1)
      (fun d hd => hne d (List.mem_cons_of_mem c hd)) (by omega)
    simp only [readsOf] at hih
    simp [hih]

theorem runClient_complete (env : ClientEnv) (filename : List Byte)
    (chunks : List (List Byte))
    (hM : chunks.flatten.length < U32)
    (hne : ∀ c ∈ chunks, 0 < c.length)
    (hopen : env.openOk = true) (hdial : env.dialOk = true) (hstat : env.statOk = true)
    (hw : ∀ i, env.connWriteOk i = true) :
    runClient env filename chunks.flatten.length (readsOf chunks) =
      { outcome := .success,
        wire := encodeHeader (Base (cStorageDir ++ filename)) chunks.flatten.length
                  ++ chunks.flatten,
        totalSent := chunks.flatten.length } := by
  unfold runClient
  simp only [hopen, hdial, Bool.not_true, Bool.false_eq_true, if_false,
    sendHeader_ok env _ _ (hw 0) (hw 1) hstat (hw 2), toUint32_of_lt hM]
  exact sendLoop_chunks env _ hM hw chunks 0 _ 3 hne (by simp)


theorem sendLoop_wire_extends (env : ClientEnv) (M : Nat) :
    ∀ (reads : List ReadRes) (totalSent : Nat) (wire : List Byte) (i : Nat),
      ∃ tail, (sendLoop env M reads totalSent wire i).wire = wire ++ tail := by
  intro reads
  induction reads with
  | nil => intro totalSent wire i; exact ⟨[], by simp [sendLoop]⟩
  | cons r rs ih =>
    intro totalSent wire i
    rw [sendLoop]
    split
    · split
      · exact ⟨[], by simp⟩
      · split
        · exact ⟨[], by simp⟩
        · split
          · obtain ⟨tail, ht⟩ := ih ((totalSent + r.data.length) % U32) (wire ++ r.data) (i + 1)
            exact ⟨r.data ++ tail, by rw [ht, List.append_assoc]⟩
          · exact ⟨[], by simp⟩
    · exact ⟨[], by simp⟩

theorem declaredContentLen_encodeHeader (name tail : List Byte) (size : Nat) :
    declaredContentLen (encodeHeader name size ++ tail) name.length = size % U32 := by
  have h4 : (putUint32 (toUint32 name.length) ++ name).length = 4 + name.length := by
    simp [length_putUint32]
  unfold declaredContentLen encodeHeader
  rw [List.append_assoc, List.append_assoc, ← List.append_assoc _ name, List.drop_left' h4,
    List.take_left' (length_putUint32 _)]
  exact getUint32_putUint32 _ (Nat.mod_lt _ (by unfold U32; omega))


/-! ## Paths -/

theorem cleanLoop_nil (rooted : Bool) (fuel : Nat) (out : List Byte) (dotdot : Nat) :
    cleanLoop rooted fuel [] out dotdot = out := by
  cases fuel <;> rfl

theorem takeWhile_element (e r : List Byte) (hsep : ∀ c ∈ e, isPathSeparator c = false)
    (hr : r = [] ∨ (r.head?.map isPathSeparator) = some true) :
    (e ++ r).takeWhile (fun x => !isPathSeparator x) = e ∧
    (e ++ r).dropWhile (fun x => !isPathSeparator x) = r := by
  induction e with
  | nil =>
    cases r with
    | nil => exact ⟨rfl, rfl⟩
    | cons a t =>
      have ha : isPathSeparator a = true := by simpa using hr
      simp [List.takeWhile, List.dropWhile, ha]
  | cons a t ih =>
    have ha : isPathSeparator a = false := hsep a (List.mem_cons_self a t)
    have iht := ih (fun c hc => hsep c (List.mem_cons_of_mem a hc))
    simp only [List.cons_append, List.takeWhile_cons, List.dropWhile_cons, ha, Bool.not_false,
      if_true, iht.1, iht.2, and_self]

theorem cleanLoop_element (rooted : Bool) (fuel : Nat) (e r out : List Byte) (dotdot : Nat)
    (hne : e ≠ []) (hsep : ∀ c ∈ e, isPathSeparator c = false)
    (hdot : e ≠ [dot]) (hdd : e ≠ [dot, dot])
    (hr : r = [] ∨ (r.head?.map isPathSeparator) = some true) :
    cleanLoop rooted (fuel + 1) (e ++ r) out dotdot =
      cleanLoop rooted fuel r
        ((if (rooted && out.length != 1) || (!rooted && out.length != 0)
          then out ++ [Separator] else out) ++ e) dotdot := by
  obtain ⟨htake, hdrop⟩ := takeWhile_element e r hsep hr
  cases e with
  | nil => exact absurd rfl hne
  | cons c t =>
    have hc : isPathSeparator c = false := hsep c (List.mem_cons_self c t)
    have h2 : ¬ (c = dot ∧ (t ++ r = [] ∨ ((t ++ r).head?.map isPathSeparator) = some true)) := by
      rintro ⟨hcd, h⟩
      cases t with
      | nil => exact hdot (by rw [hcd])
      | cons d t1 =>
        have hd : isPathSeparator d = false :=
          hsep d (List.mem_cons_of_mem c (List.mem_cons_self d t1))
        simp [hd] at h
    have h3 : ¬ (c = dot ∧ (t ++ r).head? = some dot ∧
        ((t ++ r).tail = [] ∨ ((t ++ r).tail.head?.map isPathSeparator) = some true)) := by
      rintro ⟨hcd, hh, h⟩
      cases t with
      | nil => exact hdot (by rw [hcd])
      | cons d t1 =>
        have hdd1 : d = dot := by simpa using hh
        cases t1 with
        | nil => exact hdd (by rw [hcd, hdd1])
        | cons f t2 =>
          have hf : isPathSeparator f = false :=
            hsep f (List.mem_cons_of_mem c (List.mem_cons_of_mem d (List.mem_cons_self f t2)))
          simp [hf] at h
    rw [List.cons_append] at htake hdrop ⊢
    rw [cleanLoop]
    simp only [hc, Bool.false_eq_true, if_false, h2, h3, htake, hdrop]

theorem sStorageDir_eq :
    sStorageDir = [115, 101, 114, 118, 101, 114, 45, 115, 116, 111, 114, 97, 103, 101] := by
  decide

theorem Join_sStorageDir_of_element (e : List Byte) (hne : e ≠ [])
    (hsep : ∀ c ∈ e, isPathSeparator c = false) (hdot : e ≠ [dot]) (hdd : e ≠ [dot, dot]) :
    Join sStorageDir e = sStorageDir ++ [Separator] ++ e := by
  have hfuel : (sStorageDir ++ [Separator] ++ e).length = (e.length + 12) + 1 + 1 + 1 := by
    simp only [List.length_append, List.length_singleton, sStorageDir_eq, List.length_cons,
      List.length_nil]
    omega
  have hs1 : ∀ c ∈ sStorageDir, isPathSeparator c = false := by
    rw [sStorageDir_eq]
    simp only [List.forall_mem_cons, List.not_mem_nil, false_implies, implies_true, and_true]
    decide
  have hsd0 : sStorageDir ≠ [] := by rw [sStorageDir_eq]; decide
  have hsd1 : sStorageDir ≠ [dot] := by rw [sStorageDir_eq]; decide
  have hsd2 : sStorageDir ≠ [dot, dot] := by rw [sStorageDir_eq]; decide
  have hstep1 := cleanLoop_element false (e.length + 12 + 1 + 1) sStorageDir
    ([Separator] ++ e) [] 0 hsd0 hs1 hsd1 hsd2 (Or.inr rfl)
  have hstep2 : cleanLoop false (e.length + 12 + 1 + 1) ([Separator] ++ e) sStorageDir 0
      = cleanLoop false (e.length + 12 + 1) e sStorageDir 0 := by
    rw [List.singleton_append, cleanLoop]
    simp only [show isPathSeparator Separator = true by decide, if_true]
  have hstep3 := cleanLoop_element false (e.length + 12) e [] sStorageDir 0
    hne hsep hdot hdd (Or.inl rfl)
  have hlen : sStorageDir.length = 14 := by rw [sStorageDir_eq]; rfl
  simp only [List.append_nil, Bool.false_and, Bool.not_false, Bool.true_and, Bool.false_or,
    hlen, List.length_nil, cleanLoop_nil] at hstep1 hstep3
  have hne2 : sStorageDir ++ [Separator] ++ e ≠ [] := by simp
  have hroot : ¬ ((sStorageDir ++ [Separator] ++ e).head?.map isPathSeparator = some true) := by
    rw [sStorageDir_eq]
    simp only [List.cons_append, List.head?_cons, Option.map_some', Option.some.injEq]
    decide
  unfold Join
  rw [if_neg hsd0]
  unfold Clean
  simp only [hne2, if_false, hroot, hfuel]
  have h1 : (if ((0 : Nat) != 0) = true then [] ++ [Separator] else []) ++ sStorageDir
      = sStorageDir := rfl
  have h3 : (if ((14 : Nat) != 0) = true then sStorageDir ++ [Separator] else sStorageDir) ++ e
      = sStorageDir ++ ([Separator] ++ e) := by
    rw [if_pos (by decide), List.append_assoc]
  rw [h1, hstep2, hstep3, h3] at hstep1
  rw [List.append_assoc, hstep1, if_neg (by simp)]


theorem Base_of_element (l : List Byte) (hne : l ≠ [])
    (hsep : ∀ c ∈ l, isPathSeparator c = false) : Base l = l := by
  have hrev : ∀ c ∈ l.reverse, isPathSeparator c = false := fun c hc =>
    hsep c (List.mem_reverse.mp hc)
  have hdrop : l.reverse.dropWhile isPathSeparator = l.reverse := by
    cases hl : l.reverse with
    | nil => rfl
    | cons a t =>
      have : isPathSeparator a = false := hrev a (by rw [hl]; exact List.mem_cons_self a t)
      simp [List.dropWhile, this]
  have htake : l.reverse.takeWhile (fun c => !isPathSeparator c) = l.reverse := by
    rw [List.takeWhile_eq_self_iff]
    intro c hc
    simp [hrev c hc]
  unfold Base
  simp only [hne, if_false, hdrop, List.reverse_reverse, htake]

theorem Base_cases (path : List Byte) :
    Base path = [Separator] ∨
      (Base path ≠ [] ∧ ∀ c ∈ Base path, isPathSeparator c = false) := by
  by_cases h0 : path = []
  · subst h0
    right
    have hb : Base [] = [dot] := rfl
    rw [hb]
    refine ⟨by simp, ?_⟩
    intro c hc
    rw [List.mem_singleton] at hc
    subst hc
    decide
  · by_cases hlast : ((path.reverse.dropWhile isPathSeparator).reverse.reverse.takeWhile
        (fun c => !isPathSeparator c)).reverse = []
    · left
      unfold Base
      simp only [h0, if_false, hlast, if_true]
    · right
      have hb : Base path = ((path.reverse.dropWhile isPathSeparator).reverse.reverse.takeWhile
          (fun c => !isPathSeparator c)).reverse := by
        unfold Base
        simp only [h0, if_false, hlast]
      rw [hb]
      refine ⟨hlast, ?_⟩
      intro c hc
      have hc1 := List.mem_reverse.mp hc
      have := List.mem_takeWhile_imp hc1
      simpa using this

theorem Base_idem (path : List Byte) : Base (Base path) = Base path := by
  rcases Base_cases path with h | ⟨hne, hsep⟩
  · rw [h]; decide
  · exact Base_of_element _ hne hsep

/-- The path of the file `handleConnection` creates, for a filename whose last element
is an ordinary name: a direct child of the storage directory. The last elements `.`, `..`
and `/` (an empty filename, or one that ends in `.` or `..` or is made of separators) are
the ones left out. -/
theorem Join_sStorageDir_Base (name : List Byte)
    (hdot : Base name ≠ [dot]) (hdd : Base name ≠ [dot, dot])
    (hroot : Base name ≠ [Separator]) :
    Join sStorageDir (Base name) = sStorageDir ++ [Separator] ++ Base name ∧
    Base name ≠ [] ∧ ∀ c ∈ Base name, isPathSeparator c = false := by
  rcases Base_cases name with h | ⟨hne, hsep⟩
  · exact absurd h hroot
  · exact ⟨Join_sStorageDir_of_element _ hne hsep hdot hdd, hne, hsep⟩


/-! ## The claims -/

/-- Claim C2 (header round trip). When the header writes of `runClient` succeed for a filename
of fewer than `2^32` bytes and a content length below `2^32`, they put `8 + len(name)`
bytes on the wire, and the header reads of `handleConnection` applied to these bytes
followed by any further bytes `rest` give back exactly the filename and the content
length and leave exactly `rest` unread. -/
theorem header_round_trip (env : ClientEnv) (name rest : List Byte) (contentLength : Nat)
    (hN : name.length < U32) (hM : contentLength < U32)
    (h0 : env.connWriteOk 0 = true) (h1 : env.connWriteOk 1 = true)
    (hs : env.statOk = true) (h2 : env.connWriteOk 2 = true) :
    ∃ hdr : List Byte,
      sendHeader env name contentLength = .ok hdr ∧
      hdr.length = 8 + name.length ∧
      decodeHeader (hdr ++ rest) = .ok (name, contentLength, rest) :=
  ⟨encodeHeader name contentLength, sendHeader_ok env name contentLength h0 h1 hs h2,
    length_encodeHeader name contentLength,
    decodeHeader_encodeHeader name contentLength rest hN hM⟩

theorem header_round_trip_witness :
    ∃ hdr : List Byte,
      sendHeader ClientEnv.allOk (bytesOfString "car.jpg") 3 = .ok hdr ∧
      hdr.length = 8 + (bytesOfString "car.jpg").length ∧
      decodeHeader (hdr ++ [1, 2, 3]) = .ok (bytesOfString "car.jpg", 3, [1, 2, 3]) :=
  header_round_trip ClientEnv.allOk (bytesOfString "car.jpg") [1, 2, 3] 3
    (by decide) (by decide) rfl rfl rfl rfl

/-- Claim C4 (the receiver reads the declared length and no more). On a stream made of the
header for `(name, M)`, a body of `M` bytes and any further bytes `extra`, and with the
local file system calls succeeding, `handleConnection` ends on "File received
successfully", the file it created at `server-storage/<base name>` holds exactly the
body, and `extra` is left unread on the connection. -/
theorem receiver_reads_declared_length (env : ServerEnv) (name body extra : List Byte)
    (hN : name.length < U32) (hM : body.length < U32)
    (hmk : env.mkdirOk = true) (hcr : env.createOk (Join sStorageDir (Base name)) = true)
    (hw : ∀ i, env.writeOk i = true) :
    (handleConnection env (encodeHeader name body.length ++ body ++ extra)).outcome
        = .success ∧
    (handleConnection env (encodeHeader name body.length ++ body ++ extra)).createArg
        = some (Join sStorageDir (Base name)) ∧
    (handleConnection env (encodeHeader name body.length ++ body ++ extra)).file
        = some body ∧
    (handleConnection env (encodeHeader name body.length ++ body ++ extra)).totalRead
        = body.length ∧
    (handleConnection env (encodeHeader name body.length ++ body ++ extra)).unread
        = extra := by
  rw [List.append_assoc, handleConnection_complete env name body extra hN hM hmk hcr hw]
  exact ⟨rfl, rfl, rfl, rfl, rfl⟩

theorem receiver_reads_declared_length_witness :
    encodeHeader (bytesOfString "car.jpg") 3 =
      [0, 0, 0, 7, 99, 97, 114, 46, 106, 112, 103, 0, 0, 0, 3] ∧
    (handleConnection ServerEnv.allOk
      (encodeHeader (bytesOfString "car.jpg") 3 ++ [1, 2, 3] ++ [9, 9])).outcome
        = .success ∧
    (handleConnection ServerEnv.allOk
      (encodeHeader (bytesOfString "car.jpg") 3 ++ [1, 2, 3] ++ [9, 9])).createArg
        = some (bytesOfString "server-storage/car.jpg") ∧
    (handleConnection ServerEnv.allOk
      (encodeHeader (bytesOfString "car.jpg") 3 ++ [1, 2, 3] ++ [9, 9])).file
        = some [1, 2, 3] ∧
    (handleConnection ServerEnv.allOk
      (encodeHeader (bytesOfString "car.jpg") 3 ++ [1, 2, 3] ++ [9, 9])).totalRead
        = 3 ∧
    (handleConnection ServerEnv.allOk
      (encodeHeader (bytesOfString "car.jpg") 3 ++ [1, 2, 3] ++ [9, 9])).unread
        = [9, 9] :=
  ⟨by decide, receiver_reads_declared_length ServerEnv.allOk (bytesOfString "car.jpg")
    [1, 2, 3] [9, 9] (by decide) (by decide) rfl rfl (fun _ => rfl)⟩

/-- Claim C5 (wire layout of the sender). For a file whose base name has fewer than `2^32`
bytes and whose content has fewer than `2^32` bytes, whatever non-empty chunks of at most
4096 bytes the reads of the file return, and with the calls of the sender succeeding,
`runClient` ends on "File sent successfully" and the bytes it wrote to the connection
are the big-endian length of the name, the name, the big-endian length of the content and
the content: `8 + N + M` bytes and nothing else. -/
theorem sender_wire_layout (env : ClientEnv) (filename : List Byte)
    (chunks : List (List Byte))
    (hN : (Base (cStorageDir ++ filename)).length < U32)
    (hM : chunks.flatten.length < U32)
    (hchunks : ∀ c ∈ chunks, 0 < c.length ∧ c.length ≤ 4096)
    (hopen : env.openOk = true) (hdial : env.dialOk = true) (hstat : env.statOk = true)
    (hw : ∀ i, env.connWriteOk i = true) :
    (runClient env filename chunks.flatten.length (readsOf chunks)).outcome = .success ∧
    (runClient env filename chunks.flatten.length (readsOf chunks)).wire =
      putUint32 (Base (cStorageDir ++ filename)).length ++ Base (cStorageDir ++ filename)
        ++ putUint32 chunks.flatten.length ++ chunks.flatten ∧
    (runClient env filename chunks.flatten.length (readsOf chunks)).wire.length =
      8 + (Base (cStorageDir ++ filename)).length + chunks.flatten.length := by
  rw [runClient_complete env filename chunks hM (fun c hc => (hchunks c hc).1)
    hopen hdial hstat hw]
  refine ⟨rfl, ?_, ?_⟩
  · simp only [encodeHeader, toUint32_of_lt hN, toUint32_of_lt hM]
  · simp only [List.length_append, length_encodeHeader]

theorem sender_wire_layout_witness :
    (runClient ClientEnv.allOk (bytesOfString "car.jpg") 3 (readsOf [[1, 2], [3]])).outcome
      = .success ∧
    (runClient ClientEnv.allOk (bytesOfString "car.jpg") 3 (readsOf [[1, 2], [3]])).wire =
      [0, 0, 0, 7] ++ bytesOfString "car.jpg" ++ [0, 0, 0, 3] ++ [1, 2, 3] ∧
    (runClient ClientEnv.allOk (bytesOfString "car.jpg") 3
      (readsOf [[1, 2], [3]])).wire.length = 8 + 7 + 3 :=
  sender_wire_layout ClientEnv.allOk (bytesOfString "car.jpg") [[1, 2], [3]]
    (by decide) (by decide) (by decide) rfl rfl rfl (fun _ => rfl)

/-- Claim C1 (end-to-end transfer). For a file whose base name has fewer than `2^32` bytes and
whose content has fewer than `2^32` bytes (read in any non-empty chunks of at most 4096
bytes), when the calls of the sender and the local file system calls of the receiver
succeed, `handleConnection` fed with exactly the bytes `runClient` wrote ends on "File
received successfully", and the file it created, at `server-storage/<base name>`, holds
exactly the bytes of the source file, with nothing left unread. -/
theorem end_to_end_transfer (cenv : ClientEnv) (senv : ServerEnv) (filename : List Byte)
    (chunks : List (List Byte))
    (hN : (Base (cStorageDir ++ filename)).length < U32)
    (hM : chunks.flatten.length < U32)
    (hchunks : ∀ c ∈ chunks, 0 < c.length ∧ c.length ≤ 4096)
    (hopen : cenv.openOk = true) (hdial : cenv.dialOk = true) (hstat : cenv.statOk = true)
    (hcw : ∀ i, cenv.connWriteOk i = true)
    (hmk : senv.mkdirOk = true)
    (hcr : senv.createOk (Join sStorageDir (Base (cStorageDir ++ filename))) = true)
    (hw : ∀ i, senv.writeOk i = true) :
    (runClient cenv filename chunks.flatten.length (readsOf chunks)).outcome = .success ∧
    (handleConnection senv
      (runClient cenv filename chunks.flatten.length (readsOf chunks)).wire).outcome
        = .success ∧
    (handleConnection senv
      (runClient cenv filename chunks.flatten.length (readsOf chunks)).wire).createArg
        = some (Join sStorageDir (Base (cStorageDir ++ filename))) ∧
    (handleConnection senv
      (runClient cenv filename chunks.flatten.length (readsOf chunks)).wire).file
        = some chunks.flatten ∧
    (handleConnection senv
      (runClient cenv filename chunks.flatten.length (readsOf chunks)).wire).unread = [] := by
  rw [runClient_complete cenv filename chunks hM (fun c hc => (hchunks c hc).1)
    hopen hdial hstat hcw]
  have h := handleConnection_complete senv (Base (cStorageDir ++ filename)) chunks.flatten []
    hN hM hmk (by rw [Base_idem]; exact hcr) hw
  rw [List.append_nil, Base_idem] at h
  rw [h]
  exact ⟨rfl, rfl, rfl, rfl, rfl⟩

theorem end_to_end_transfer_witness :
    ((handleConnection ServerEnv.allOk
        (runClient ClientEnv.allOk (bytesOfString "car.jpg") 3
          (readsOf [[1, 2], [3]])).wire).outcome = .success ∧
      (handleConnection ServerEnv.allOk
        (runClient ClientEnv.allOk (bytesOfString "car.jpg") 3
          (readsOf [[1, 2], [3]])).wire).createArg
          = some (bytesOfString "server-storage/car.jpg") ∧
      (handleConnection ServerEnv.allOk
        (runClient ClientEnv.allOk (bytesOfString "car.jpg") 3
          (readsOf [[1, 2], [3]])).wire).file = some [1, 2, 3]) ∧
    ((handleConnection ServerEnv.allOk
        (runClient ClientEnv.allOk (bytesOfString "empty") 0 (readsOf [])).wire).outcome
          = .success ∧
      (handleConnection ServerEnv.allOk
        (runClient ClientEnv.allOk (bytesOfString "empty") 0 (readsOf [])).wire).file
          = some []) ∧
    ((handleConnection ServerEnv.allOk
        (runClient ClientEnv.allOk (bytesOfString "car.jpg")
          ([List.replicate 4096 7, [9]] : List (List Byte)).flatten.length
          (readsOf [List.replicate 4096 7, [9]])).wire).outcome = .success ∧
      (handleConnection ServerEnv.allOk
        (runClient ClientEnv.allOk (bytesOfString "car.jpg")
          ([List.replicate 4096 7, [9]] : List (List Byte)).flatten.length
          (readsOf [List.replicate 4096 7, [9]])).wire).file
          = some (List.replicate 4096 7 ++ [9])) :=
  have hlen : ([List.replicate 4096 7, [9]] : List (List Byte)).flatten.length = 4097 := by
    rw [List.length_flatten]
    simp only [List.map_cons, List.map_nil, List.sum_cons, List.sum_nil, List.length_replicate,
      List.length_cons, List.length_nil]
    rfl
  have h3 := end_to_end_transfer ClientEnv.allOk ServerEnv.allOk (bytesOfString "car.jpg")
    [[1, 2], [3]] (by decide) (by decide) (by decide) rfl rfl rfl (fun _ => rfl) rfl rfl
    (fun _ => rfl)
  have h0 := end_to_end_transfer ClientEnv.allOk ServerEnv.allOk (bytesOfString "empty")
    [] (by decide) (by decide) (by decide) rfl rfl rfl (fun _ => rfl) rfl rfl (fun _ => rfl)
  have h4097 := end_to_end_transfer ClientEnv.allOk ServerEnv.allOk (bytesOfString "car.jpg")
    [List.replicate 4096 7, [9]] (by decide) (by rw [hlen]; decide)
    (by
      intro c hc
      simp only [List.mem_cons, List.mem_singleton, List.not_mem_nil, or_false] at hc
      rcases hc with rfl | rfl
      · rw [List.length_replicate]; decide
      · decide)
    rfl rfl rfl (fun _ => rfl) rfl rfl (fun _ => rfl)
  ⟨⟨h3.2.1, h3.2.2.1, h3.2.2.2.1⟩, ⟨h0.2.1, h0.2.2.2.1⟩, ⟨h4097.2.1, h4097.2.2.2.1⟩⟩

/-- Claim C6 (a truncated header is rejected). On a stream shorter than a complete header (fewer
than 4 bytes, or fewer than `4 + N` or `8 + N` bytes, `N` being the filename length its
first four bytes declare), the header reads of `handleConnection` fail and give no
filename or content length, and `handleConnection` ends there in every environment,
without reaching `os.Create`: no file is created. The failing read is the first one the
stream cannot fill, and its error is `io.EOF` when the stream ends exactly where that
read starts and `io.ErrUnexpectedEOF` otherwise. -/
theorem truncated_header_rejected (env : ServerEnv) (s : List Byte)
    (h : s.length < 4 ∨ s.length < 8 + getUint32 (s.take 4)) :
    ∃ o : ServerOutcome,
      decodeHeader s = .error o ∧
      handleConnection env s =
        { outcome := o, createArg := none, file := none, totalRead := 0, requests := [],
          unread := [] } ∧
      (s.length < 4 →
        o = .failReadFilenameLen (if s.length = 0 then .eof else .unexpectedEOF)) ∧
      (4 ≤ s.length → s.length < 4 + getUint32 (s.take 4) →
        o = .failReadFilename (if s.length = 4 then .eof else .unexpectedEOF)) ∧
      (4 + getUint32 (s.take 4) ≤ s.length →
        o = .failReadContentLen
          (if s.length = 4 + getUint32 (s.take 4) then .eof else .unexpectedEOF)) := by
  have hall : ∀ o, decodeHeader s = .error o →
      handleConnection env s =
        { outcome := o, createArg := none, file := none, totalRead := 0, requests := [],
          unread := [] } := by
    intro o ho
    simp [handleConnection, ho]
  by_cases h4 : s.length < 4
  · have hdec : decodeHeader s =
        .error (.failReadFilenameLen (if s.length = 0 then .eof else .unexpectedEOF)) := by
      simp only [decodeHeader, binaryReadUint32, readFull_of_lt h4]
    exact ⟨_, hdec, hall _ hdec, fun _ => rfl, fun h1 => by omega, fun h1 => by omega⟩
  · have hlen : s.length < 8 + getUint32 (s.take 4) := by omega
    have hread : binaryReadUint32 s = .ok (getUint32 (s.take 4), s.drop 4) := by
      simp only [binaryReadUint32, readFull_of_le (show 4 ≤ s.length by omega)]
    by_cases hname : s.length < 4 + getUint32 (s.take 4)
    · have hdl : (s.drop 4).length < getUint32 (s.take 4) := by
        rw [List.length_drop]; omega
      have hiff : (s.drop 4).length = 0 ↔ s.length = 4 := by
        rw [List.length_drop]; omega
      have hdec : decodeHeader s =
          .error (.failReadFilename (if s.length = 4 then .eof else .unexpectedEOF)) := by
        simp only [decodeHeader, hread, readFull_of_lt hdl, hiff]
      exact ⟨_, hdec, hall _ hdec, fun h1 => by omega, fun _ _ => rfl, fun h1 => by omega⟩
    · have hdl : getUint32 (s.take 4) ≤ (s.drop 4).length := by
        rw [List.length_drop]; omega
      have hrl : ((s.drop 4).drop (getUint32 (s.take 4))).length < 4 := by
        rw [List.length_drop, List.length_drop]; omega
      have hiff : ((s.drop 4).drop (getUint32 (s.take 4))).length = 0 ↔
          s.length = 4 + getUint32 (s.take 4) := by
        rw [List.length_drop, List.length_drop]; omega
      have hread2 : binaryReadUint32 ((s.drop 4).drop (getUint32 (s.take 4))) =
          .error (if s.length = 4 + getUint32 (s.take 4) then .eof else .unexpectedEOF) := by
        simp only [binaryReadUint32, readFull_of_lt hrl, hiff]
      have hdec : decodeHeader s =
          .error (.failReadContentLen
            (if s.length = 4 + getUint32 (s.take 4) then .eof else .unexpectedEOF)) := by
        simp only [decodeHeader, hread, readFull_of_le hdl, hread2]
      exact ⟨_, hdec, hall _ hdec, fun h1 => by omega, fun _ h2 => by omega, fun _ => rfl⟩

theorem truncated_header_rejected_witness :
    decodeHeader [0, 0, 0, 7, 99, 97, 114] = .error (.failReadFilename .unexpectedEOF) ∧
    handleConnection ServerEnv.allOk [0, 0, 0, 7, 99, 97, 114] =
      { outcome := .failReadFilename .unexpectedEOF, createArg := none, file := none,
        totalRead := 0, requests := [], unread := [] } := by
  obtain ⟨o, hdec, hrun, _, hname, _⟩ :=
    truncated_header_rejected ServerEnv.allOk [0, 0, 0, 7, 99, 97, 114] (by decide)
  have ho : o = .failReadFilename .unexpectedEOF := hname (by decide) (by decide)
  subst ho
  exact ⟨hdec, hrun⟩

/-- Claim C7 (a truncated body is reported). On a stream made of a complete header declaring a
content length `M` and fewer than `M` body bytes, `handleConnection` ends (the fuel of the
model is not used up), in no environment on "File received successfully", and, when the
local file system calls succeed, on "Failed to read content" with the end-of-stream error
of `io.ReadFull`: `io.ErrUnexpectedEOF`, or `io.EOF` when the body stops at a multiple of
4096 bytes. -/
theorem truncated_body_reported (env : ServerEnv) (name body : List Byte) (M : Nat)
    (hN : name.length < U32) (hM : M < U32) (hk : body.length < M) :
    (handleConnection env (encodeHeader name M ++ body)).outcome ≠ .outOfFuel ∧
    (handleConnection env (encodeHeader name M ++ body)).outcome ≠ .success ∧
    (env.mkdirOk = true → env.createOk (Join sStorageDir (Base name)) = true →
      (∀ i, env.writeOk i = true) →
      (handleConnection env (encodeHeader name M ++ body)).outcome =
        .failReadContent (if body.length % 4096 = 0 then .eof else .unexpectedEOF)) := by
  refine ⟨handleConnection_total env _,
    handleConnection_truncated_not_success env name body M hN hM hk, ?_⟩
  intro hmk hcr hw
  rw [handleConnection_truncated env name body M hN hM hk hmk hcr hw]

theorem truncated_body_reported_witness :
    (handleConnection ServerEnv.allOk
      (encodeHeader (bytesOfString "car.jpg") 5000 ++ List.replicate 4096 7)).outcome
        ≠ .outOfFuel ∧
    (handleConnection ServerEnv.allOk
      (encodeHeader (bytesOfString "car.jpg") 5000 ++ List.replicate 4096 7)).outcome
        ≠ .success ∧
    (handleConnection ServerEnv.allOk
      (encodeHeader (bytesOfString "car.jpg") 5000 ++ List.replicate 4096 7)).outcome
        = .failReadContent .eof ∧
    (handleConnection ServerEnv.allOk
      (encodeHeader (bytesOfString "car.jpg") 3 ++ [1, 2])).outcome
        = .failReadContent .unexpectedEOF :=
  have h := truncated_body_reported ServerEnv.allOk (bytesOfString "car.jpg")
    (List.replicate 4096 7) 5000 (by decide) (by decide)
    (by rw [List.length_replicate]; decide)
  have h2 := truncated_body_reported ServerEnv.allOk (bytesOfString "car.jpg") [1, 2] 3
    (by decide) (by decide) (by decide)
  ⟨h.1, h.2.1, by rw [h.2.2 rfl rfl (fun _ => rfl), List.length_replicate]; rfl,
    h2.2.2 rfl rfl (fun _ => rfl)⟩

/-- Claim C10 (the partial file after a truncated body). On a stream made of a complete header
declaring a content length `M` and only `k < M` body bytes, and with the local file
system calls succeeding, the file `handleConnection` leaves behind holds exactly the
first `4096 * (k / 4096)` bytes of the body: the bytes received of the chunk that could
not be completed are not written. -/
theorem truncated_body_file_content (env : ServerEnv) (name body : List Byte) (M : Nat)
    (hN : name.length < U32) (hM : M < U32) (hk : body.length < M)
    (hmk : env.mkdirOk = true) (hcr : env.createOk (Join sStorageDir (Base name)) = true)
    (hw : ∀ i, env.writeOk i = true) :
    (handleConnection env (encodeHeader name M ++ body)).file =
      some (body.take (4096 * (body.length / 4096))) ∧
    (body.take (4096 * (body.length / 4096))).length = 4096 * (body.length / 4096) ∧
    (handleConnection env (encodeHeader name M ++ body)).totalRead =
      4096 * (body.length / 4096) := by
  rw [handleConnection_truncated env name body M hN hM hk hmk hcr hw]
  refine ⟨rfl, ?_, rfl⟩
  rw [List.length_take]
  omega

theorem truncated_body_file_content_witness :
    (handleConnection ServerEnv.allOk
      (encodeHeader (bytesOfString "car.jpg") 5000 ++ List.replicate 4097 7)).file
        = some (List.replicate 4096 7) ∧
    (handleConnection ServerEnv.allOk
      (encodeHeader (bytesOfString "car.jpg") 5000 ++ List.replicate 4097 7)).totalRead
        = 4096 :=
  have h := truncated_body_file_content ServerEnv.allOk (bytesOfString "car.jpg")
    (List.replicate 4097 7) 5000 (by decide) (by decide)
    (by rw [List.length_replicate]; decide) rfl rfl (fun _ => rfl)
  ⟨by
      rw [h.1, List.length_replicate, List.take_replicate]
      exact congrArg (fun n => some (List.replicate n (7 : Byte))) (by decide), by
    rw [h.2.2, List.length_replicate]⟩


theorem chunkRequest_bounds {M i : Nat} (hM : M < U32) (hi : i < chunkCount M) :
    (chunkRequest M i).1 < M ∧
    (chunkRequest M i).2 = min 4096 (M - (chunkRequest M i).1) ∧
    1 ≤ (chunkRequest M i).2 ∧ (chunkRequest M i).2 ≤ 4096 ∧
    (chunkRequest M i).1 + (chunkRequest M i).2 ≤ M ∧
    (chunkRequest M i).1 + (chunkRequest M i).2 < U32 := by
  unfold chunkCount at hi
  dsimp only [chunkRequest]
  omega

/-- Claim C9 (chunking of the receive loop). On a stream made of the header for `(name, M)`,
`M` body bytes and any further bytes, and with the local file system calls succeeding,
the receive loop of `handleConnection` makes exactly `ceil(M / 4096)` iterations; in
iteration `i` it starts with `totalRead = 4096 * i` and requests
`min(4096, M - totalRead)` bytes, a size between 1 and 4096; `totalRead` plus the size
requested never exceeds `M`, so that the `uint32` addition never wraps; every request but
the last is for 4096 bytes and the last is for the remainder; and the loop ends with
`totalRead = M` on "File received successfully". -/
theorem receive_loop_chunking (env : ServerEnv) (name body extra : List Byte)
    (hN : name.length < U32) (hM : body.length < U32)
    (hmk : env.mkdirOk = true) (hcr : env.createOk (Join sStorageDir (Base name)) = true)
    (hw : ∀ i, env.writeOk i = true) :
    (handleConnection env (encodeHeader name body.length ++ body ++ extra)).requests =
      (List.range (chunkCount body.length)).map
        (fun i => (4096 * i, min 4096 (body.length - 4096 * i))) ∧
    (handleConnection env (encodeHeader name body.length ++ body ++ extra)).requests.length =
      chunkCount body.length ∧
    (body.length ≤ 4096 * chunkCount body.length ∧
      4096 * chunkCount body.length < body.length + 4096) ∧
    (∀ q ∈ (handleConnection env (encodeHeader name body.length ++ body ++ extra)).requests,
      q.1 < body.length ∧ q.2 = min 4096 (body.length - q.1) ∧ 1 ≤ q.2 ∧ q.2 ≤ 4096 ∧
      q.1 + q.2 ≤ body.length ∧ q.1 + q.2 < U32) ∧
    (∀ i, i + 1 < chunkCount body.length →
      (handleConnection env (encodeHeader name body.length ++ body ++ extra)).requests[i]? =
        some (4096 * i, 4096)) ∧
    (0 < body.length →
      (handleConnection env
        (encodeHeader name body.length ++ body ++ extra)).requests.getLast? =
        some (4096 * (chunkCount body.length - 1),
              body.length - 4096 * (chunkCount body.length - 1))) ∧
    (handleConnection env (encodeHeader name body.length ++ body ++ extra)).totalRead =
      body.length ∧
    (handleConnection env (encodeHeader name body.length ++ body ++ extra)).outcome =
      .success := by
  rw [List.append_assoc, handleConnection_complete env name body extra hN hM hmk hcr hw]
  have hcc : chunkCount body.length = (body.length + 4095) / 4096 := rfl
  refine ⟨rfl, by simp, by omega, ?_, ?_, ?_, rfl, rfl⟩
  · intro q hq
    dsimp only at hq
    obtain ⟨i, hi, rfl⟩ := List.mem_map.mp hq
    exact chunkRequest_bounds hM (List.mem_range.mp hi)
  · intro i hi
    dsimp only
    rw [List.getElem?_map, List.getElem?_range (by omega)]
    simp only [Option.map_some', chunkRequest, Option.some.injEq, Prod.mk.injEq, true_and]
    omega
  · intro hpos
    dsimp only
    have hn : chunkCount body.length = (chunkCount body.length - 1) + 1 := by omega
    rw [hn, List.range_succ, List.map_append, List.map_cons, List.map_nil,
      List.getLast?_concat]
    simp only [chunkRequest, Nat.add_sub_cancel, Option.some.injEq, Prod.mk.injEq, true_and]
    omega

theorem receive_loop_chunking_witness :
    (handleConnection ServerEnv.allOk
      (encodeHeader (bytesOfString "car.jpg") (List.replicate 4097 (7 : Byte)).length
        ++ List.replicate 4097 7 ++ [])).requests = [(0, 4096), (4096, 1)] ∧
    (handleConnection ServerEnv.allOk
      (encodeHeader (bytesOfString "car.jpg") (List.replicate 4097 (7 : Byte)).length
        ++ List.replicate 4097 7 ++ [])).totalRead = 4097 ∧
    (handleConnection ServerEnv.allOk
      (encodeHeader (bytesOfString "car.jpg") (List.replicate 4097 (7 : Byte)).length
        ++ List.replicate 4097 7 ++ [])).outcome = .success :=
  have h := receive_loop_chunking ServerEnv.allOk (bytesOfString "car.jpg")
    (List.replicate 4097 7) []
    (by decide) (by rw [List.length_replicate]; decide) rfl rfl (fun _ => rfl)
  ⟨by rw [h.1, List.length_replicate]; decide, by rw [h.2.2.2.2.2.2.1, List.length_replicate],
    h.2.2.2.2.2.2.2⟩

/-- Claim C8, as amended (the declared length is the file size modulo `2^32`). When the header
writes of `runClient` succeed, the content length field of what it wrote to the
connection is the `uint32` conversion of the size `file.Stat` reported: the size modulo
`2^32`, which is the size itself for a file of fewer than `2^32` bytes. -/
theorem declared_length_is_size_mod (env : ClientEnv) (filename : List Byte) (size : Nat)
    (reads : List ReadRes)
    (hopen : env.openOk = true) (hdial : env.dialOk = true)
    (h0 : env.connWriteOk 0 = true) (h1 : env.connWriteOk 1 = true)
    (hs : env.statOk = true) (h2 : env.connWriteOk 2 = true) :
    declaredContentLen (runClient env filename size reads).wire
        (Base (cStorageDir ++ filename)).length = size % U32 ∧
    (size < U32 →
      declaredContentLen (runClient env filename size reads).wire
        (Base (cStorageDir ++ filename)).length = size) := by
  have hmain : declaredContentLen (runClient env filename size reads).wire
      (Base (cStorageDir ++ filename)).length = size % U32 := by
    unfold runClient
    simp only [hopen, hdial, Bool.not_true, Bool.false_eq_true, if_false,
      sendHeader_ok env _ _ h0 h1 hs h2]
    obtain ⟨tail, ht⟩ := sendLoop_wire_extends env (toUint32 size) reads 0
      (encodeHeader (Base (cStorageDir ++ filename)) size) 3
    rw [ht]
    exact declaredContentLen_encodeHeader _ tail size
  exact ⟨hmain, fun hlt => by rw [hmain]; exact Nat.mod_eq_of_lt hlt⟩

theorem declared_length_is_size_mod_witness :
    declaredContentLen
        (runClient ClientEnv.allOk (bytesOfString "car.jpg") 3 (readsOf [[1, 2], [3]])).wire
        (Base (cStorageDir ++ bytesOfString "car.jpg")).length = 3 :=
  (declared_length_is_size_mod ClientEnv.allOk (bytesOfString "car.jpg") 3
    (readsOf [[1, 2], [3]]) rfl rfl rfl rfl rfl rfl).2 (by decide)

/-- Claim C8 as stated fails for a file of `2^32` bytes: `file.Stat` reports 4294967296, the
content length field `runClient` writes is 0, and `runClient` then sends no content at
all and ends on "File sent successfully". -/
theorem declared_length_truncated_at_4GiB :
    declaredContentLen
        (runClient ClientEnv.allOk (bytesOfString "big.bin") 4294967296
          (readsOf [[1, 2, 3]])).wire
        (Base (cStorageDir ++ bytesOfString "big.bin")).length ≠ 4294967296 ∧
    runClient ClientEnv.allOk (bytesOfString "big.bin") 4294967296 (readsOf [[1, 2, 3]]) =
      { outcome := .success,
        wire := [0, 0, 0, 7] ++ bytesOfString "big.bin" ++ [0, 0, 0, 0],
        totalSent := 0 } := by
  decide

/-- Claim C3 fails on the filename `..`: `filepath.Base` keeps it and `filepath.Join` resolves
it, so that the path `handleConnection` hands to `os.Create` is `.`, the parent of the
storage directory. On the empty filename and on `.` and `/` the path is the storage
directory `server-storage` itself. A filename such as `../../etc/passwd` does give a
direct child, `server-storage/passwd`. -/
theorem create_path_not_always_child :
    (handleConnection ServerEnv.allOk
      (encodeHeader (bytesOfString "..") 0)).createArg = some (bytesOfString ".") ∧
    (handleConnection ServerEnv.allOk
      (encodeHeader (bytesOfString "a/..") 0)).createArg = some (bytesOfString ".") ∧
    (handleConnection ServerEnv.allOk
      (encodeHeader [] 0)).createArg = some (bytesOfString "server-storage") ∧
    (handleConnection ServerEnv.allOk
      (encodeHeader (bytesOfString ".") 0)).createArg = some (bytesOfString "server-storage") ∧
    (handleConnection ServerEnv.allOk
      (encodeHeader (bytesOfString "/") 0)).createArg = some (bytesOfString "server-storage") ∧
    (handleConnection ServerEnv.allOk
      (encodeHeader (bytesOfString "../../etc/passwd") 0)).createArg =
        some (bytesOfString "server-storage/passwd") := by
  decide

end FileTransfer
